import Mathlib

/-!
Shallow embedding of the Voice-Enabled ERP assistant
(`voice_enabled_erp.py`) and proofs about its slot-extraction and
dialogue logic.

Strings are modelled as `List Char`.  Python string primitives used by
the source (`in`, `split(sep)`, `split()`, `strip()`, `lower()`,
`replace`, `str.isdigit`) are modelled below, faithfully to CPython
semantics on the ASCII inputs this program manipulates.  The external
transformer pipelines (NER, extractive QA, zero-shot classification)
are modelled as an oracle record of functions; an oracle returning
`none` models the model call raising an exception (the source wraps
every extractor body in `try:  except: return None`).  Confidence
scores are exact rationals; the floats 0.0, 0.5, 0.8, 0.9, 1.0 of the
source compare against the 0.5 threshold exactly as the rationals do.
-/

namespace VoiceERP

/-- Literal helper: the character list of a string literal. -/
def strL (s : String) : List Char := s.data

/-- Python `str.lower()` (ASCII case folding, as used by the source). -/
def lowerL (s : List Char) : List Char := s.map Char.toLower

/-- Index of the first occurrence of `pat` in `s` (leftmost match),
`none` when `pat` does not occur. -/
def firstOcc (pat : List Char) : List Char → Option Nat
  | [] => if pat = [] then some 0 else none
  | c :: s => if pat.isPrefixOf (c :: s) then some 0 else (firstOcc pat s).map (· + 1)

/-- Python `pat in s` substring test. -/
def containsB (pat s : List Char) : Bool := (firstOcc pat s).isSome

/-- Position of the first occurrence of `pat`, or `s.length` when absent. -/
def cut (pat s : List Char) : Nat := (firstOcc pat s).getD s.length

/-- Python `s.split(pat)[0]`: the prefix of `s` before the first
occurrence of `pat` (all of `s` when `pat` is absent). -/
def truncAt (pat s : List Char) : List Char := s.take (cut pat s)

/-- Python `s.split(pat)[1]`: the segment of `s` strictly between the
first and second (non-overlapping) occurrences of `pat`; `none` when
`pat` does not occur (Python raises `IndexError`, which the source
catches). -/
def pySeg1 (pat s : List Char) : Option (List Char) :=
  (firstOcc pat s).map (fun i => truncAt pat (s.drop (i + pat.length)))

/-- Helper for `pySplitWs`: accumulates the current token (reversed). -/
def wsSplitAux : List Char → List Char → List (List Char)
  | [], cur => if cur = [] then [] else [cur.reverse]
  | c :: s, cur =>
    if c.isWhitespace then
      if cur = [] then wsSplitAux s [] else cur.reverse :: wsSplitAux s []
    else wsSplitAux s (c :: cur)

/-- Python `s.split()` — split on whitespace runs, no empty tokens. -/
def pySplitWs (s : List Char) : List (List Char) := wsSplitAux s []

/-- Python `s.strip()` — remove leading and trailing whitespace. -/
def pyStrip (s : List Char) : List Char :=
  ((s.dropWhile Char.isWhitespace).reverse.dropWhile Char.isWhitespace).reverse

/-- Python `s.isdigit()` — nonempty and all digits (ASCII). -/
def pyIsdigit (s : List Char) : Bool := !s.isEmpty && s.all Char.isDigit

/-- Numeric value of a nonempty digit string, as Python
`float("".join(digits))` produces (integer-valued). -/
def digitsToNat (s : List Char) : Nat :=
  s.foldl (fun a c => 10 * a + (c.toNat - '0'.toNat)) 0

/-- Fuelled worker for Python `s.replace(old, new)` (replaces every
non-overlapping occurrence, scanning left to right).  One fuel unit is
consumed per step while at least one character is consumed, so fuel
`s.length` computes the full replacement. -/
def pyReplaceFuel (old new : List Char) : Nat → List Char → List Char
  | 0, s => s
  | _ + 1, [] => []
  | fuel + 1, c :: rest =>
    if old ≠ [] ∧ old.isPrefixOf (c :: rest) then
      new ++ pyReplaceFuel old new fuel ((c :: rest).drop old.length)
    else c :: pyReplaceFuel old new fuel rest

/-- Python `s.replace(old, new)` for nonempty `old`. -/
def pyReplace (old new s : List Char) : List Char := pyReplaceFuel old new s.length s

/-- A named entity as returned by the NER pipeline: surface word and tag. -/
structure Entity where
  word : List Char
  tag : List Char
deriving DecidableEq

/-- The external NLP model calls made by `ERPAssistant`.  A `none`
result models the call raising an exception (swallowed by the source's
bare `except`).  `ner` receives the full text; `qa` receives question
and context and yields the answer span; `zeroShot` receives the text
and the candidate labels and yields the top-ranked label. -/
structure NLP where
  ner : List Char → Option (List Entity)
  qa : List Char → List Char → Option (List Char)
  zeroShot : List Char → List (List Char) → Option (List Char)

/-- The `MoneyRequest` dataclass: three optional slots. -/
structure MoneyRequest where
  project_id : Option (List Char)
  amount : Option Nat
  reason : Option (List Char)
deriving DecidableEq

/-- NER tags accepted by `extract_project_id`. -/
def nerTags : List (List Char) := [strL "ORG", strL "MISC", strL "NUM"]

/-- Stop words skipped by the lexical fallback of `extract_project_id`. -/
def stopWords : List (List Char) := [strL "to", strL "for", strL "the", strL "buy"]

/-- The NER scan of `extract_project_id`: first entity whose surface
word occurs in the post-"project" segment and whose tag is accepted. -/
def projectIdNerScan (entities : List Entity) (projectPart : List Char) : Option Entity :=
  entities.find? (fun e => containsB e.word projectPart && nerTags.contains e.tag)

/-- The keyword fallback loop of `extract_project_id` (lines 59-67 of
the source): scan the tokens of the post-"project" segment; a digit
token is returned; a non-stop-word token triggers the candidate-name
computation on the original (unlowered) text — Python's
`text.split("project")[1]` raises `IndexError` when lowercase
"project" is absent from the original text, which the enclosing
`except` turns into an overall `None` (so the scan stops). -/
def scanWords (text : List Char) : List (List Char) → Option (List Char)
  | [] => none
  | w :: ws =>
    if pyIsdigit w then some w
    else if stopWords.contains w then scanWords text ws
    else
      match pySeg1 (strL "project") text with
      | none => none
      | some seg =>
        let possible := pyStrip (truncAt (strL "to buy") seg)
        if possible ≠ [] ∧ containsB (strL "amount") (lowerL possible) = false then
          some possible
        else scanWords text ws

/-- `ERPAssistant.extract_project_id` (lines 35-69).  Note that the
source calls NER before splitting, that `project_part` is Python's
`text.lower().split("project")[1]`, and that the disqualification test
is substring containment of "to" / "buy" in the first whitespace token
of that segment. -/
def extractProjectId (o : NLP) (text : List Char) : Option (List Char) :=
  if containsB (strL "project") (lowerL text) = false then none
  else
    match o.ner text with
    | none => none
    | some entities =>
      match pySeg1 (strL "project") (lowerL text) with
      | none => none
      | some projectPart =>
        match pySplitWs projectPart with
        | [] => none
        | tok0 :: _ =>
          if containsB (strL "to") tok0 || containsB (strL "buy") tok0 then none
          else
            match projectIdNerScan entities projectPart with
            | some e => some e.word
            | none => scanWords text (pySplitWs projectPart)

/-- The fixed question `extract_amount` poses to the QA pipeline. -/
def howMuchQuestion : List Char := strL "How much money is requested?"

/-- `ERPAssistant.extract_amount` (lines 71-89): ask QA, keep the
digits of the answer, parse them; `None` when QA fails or the answer
has no digit (the function falls off its end). -/
def extractAmount (o : NLP) (text : List Char) : Option Nat :=
  match o.qa howMuchQuestion text with
  | none => none
  | some answer =>
    let numbers := answer.filter Char.isDigit
    if numbers ≠ [] then some (digitsToNat numbers) else none

/-- The fixed category set of `extract_reason`. -/
def reasonCategories : List (List Char) :=
  [strL "purchase", strL "equipment", strL "supplies", strL "services", strL "maintenance"]

/-- The sequential truncation loop of `extract_reason` (lines 105-107):
`for splitter in ["and", "the amount", "i need"]: buy_part =
buy_part.split(splitter)[0]` (guarded by `in`, which `truncAt` already
subsumes: an absent splitter leaves the string unchanged). -/
def seqTrunc (s : List Char) : List Char :=
  truncAt (strL "i need") (truncAt (strL "the amount") (truncAt (strL "and") s))

/-- `ERPAssistant.extract_reason` (lines 91-116). `buy_part` is
Python's `text.lower().split("buy")[1]`. -/
def extractReason (o : NLP) (text : List Char) : Option (List Char) :=
  if containsB (strL "buy") (lowerL text) = false then none
  else
    match pySeg1 (strL "buy") (lowerL text) with
    | none => none
    | some buyPart0 =>
      let buyPart := seqTrunc buyPart0
      match o.zeroShot (pyStrip buyPart) reasonCategories with
      | none => none
      | some topCategory =>
        some (strL "buy " ++ pyStrip buyPart ++ strL " for the project (" ++
          topCategory ++ strL ")")

/-- `ERPAssistant._get_confidence` for the `project_id` field. -/
def confidenceProjectId : Option (List Char) → ℚ
  | none => 0
  | some s => if pyIsdigit s = true ∨ 2 < s.length then 9/10 else 1/2

/-- `ERPAssistant._get_confidence` for the `amount` field (the
extracted amount is always numeric). -/
def confidenceAmount : Option Nat → ℚ
  | none => 0
  | some _ => 1

/-- `ERPAssistant._get_confidence` for the `reason` field. -/
def confidenceReason : Option (List Char) → ℚ
  | none => 0
  | some s => if 10 < s.length then 8/10 else 1/2

/-- `ERPAssistant.process_request` (lines 181-207): run the three
extractors, score them, and keep a raw value only when its confidence
is strictly above the 0.5 threshold. -/
def processRequest (o : NLP) (text : List Char) : MoneyRequest :=
  let rp := extractProjectId o text
  let ra := extractAmount o text
  let rr := extractReason o text
  { project_id := if (1:ℚ)/2 < confidenceProjectId rp then rp else none
    amount := if (1:ℚ)/2 < confidenceAmount ra then ra else none
    reason := if (1:ℚ)/2 < confidenceReason rr then rr else none }

/-- Python truthiness of an optional string (`None` and `""` are falsy). -/
def pyTruthyStr : Option (List Char) → Bool
  | none => false
  | some s => !s.isEmpty

/-- Python truthiness of an optional number (`None` and `0.0` are falsy). -/
def pyTruthyNum : Option Nat → Bool
  | none => false
  | some n => n != 0

/-- Rendering of an optional string slot inside the f-string of
`generate_confirmation_message` (`None` renders as "None"). -/
def showOptStr : Option (List Char) → List Char
  | none => strL "None"
  | some s => s

/-- Rendering of the float amount inside the confirmation f-string
(`float(n)` prints as "n.0" for the integer-valued amounts produced by
`extract_amount`). -/
def showOptFloat : Option Nat → List Char
  | none => strL "None"
  | some n => (Nat.repr n).data ++ strL ".0"

/-- `ERPAssistant.generate_confirmation_message` (lines 209-218). -/
def generateConfirmationMessage (r : MoneyRequest) : List Char :=
  strL "You are going to add request money for\nproject: " ++ showOptStr r.project_id ++
    strL "\nrequest amount: " ++ showOptFloat r.amount ++
    strL "\nreason: " ++ showOptStr r.reason ++
    strL "\nAre you sure you want to proceed?"

/-- Result tuple of `process_input`:
`(recognized_text, response, show_confirm, missing_field)`. -/
structure TurnResult where
  recognizedText : List Char
  response : List Char
  showConfirm : Bool
  missingField : Option (List Char)
deriving DecidableEq

/-- `ERPAssistant.process_input` (lines 134-179), text path: the audio
path is external transcription producing `text_input`, after which the
flow below is shared.  An empty `textInput` models Python's falsy
`text_input` (both `None` and `""`).  The slot checks are Python
truthiness tests (`if not request.project_id: ... elif not
request.amount: ... elif not request.reason: ...`). -/
def processInput (o : NLP) (textInput : List Char) : TurnResult :=
  if textInput = [] then
    { recognizedText := strL "No input provided", response := []
      showConfirm := false, missingField := none }
  else
    let request := processRequest o textInput
    if pyTruthyStr request.project_id = false then
      { recognizedText := textInput
        response := strL "Can you provide me the project name you are trying to request money for?"
        showConfirm := false, missingField := some (strL "project") }
    else if pyTruthyNum request.amount = false then
      { recognizedText := textInput
        response := strL "Can you specify the amount you need in riyals?"
        showConfirm := false, missingField := some (strL "amount") }
    else if pyTruthyStr request.reason = false then
      { recognizedText := textInput
        response := strL "Can you provide the reason for this money request?"
        showConfirm := false, missingField := some (strL "reason") }
    else
      { recognizedText := textInput
        response := generateConfirmationMessage request
        showConfirm := true, missingField := none }

/-- The slot-specific merge of `handle_additional_input` (lines
292-298 text branch; the audio branch, lines 275-280, is the same
merge on the transcribed fragment): `full_text` is rebuilt from the
accumulated text and the follow-up fragment according to the pending
missing field, and then re-submitted to `process_input`.  Note the
project case is Python `str.replace`, which replaces every occurrence. -/
def mergeFollowup (missingField accum frag : List Char) : List Char :=
  if missingField = strL "project" then
    pyReplace (strL "project") (strL "project " ++ frag) accum
  else if missingField = strL "amount" then
    accum ++ strL " " ++ frag ++ strL " riyals"
  else if missingField = strL "reason" then
    accum ++ strL " to " ++ frag
  else accum

/-- The record row `confirm_and_save` appends to `requests.csv`. -/
structure SavedRecord where
  project : Option (List Char)
  request_amount : Option Nat
  reason : Option (List Char)
  timestamp : Nat
deriving DecidableEq

/-- `ERPAssistant.confirm_and_save` (lines 220-238): re-run
`process_request` on the text handed to the confirm action and persist
the freshly derived record (the persistence call itself is the
external port; we return the record it is given).  `now` stands for
`pd.Timestamp.now()`. -/
def confirmAndSave (o : NLP) (textInput : List Char) (now : Nat) :
    List Char × Option SavedRecord :=
  if textInput = [] then (strL "No request to confirm", none)
  else
    let request := processRequest o textInput
    (strL "Request saved successfully!",
      some { project := request.project_id, request_amount := request.amount
             reason := request.reason, timestamp := now })

/-- Modelled from the spec (section 4.3): truncation of the candidate
reason span "at the first occurrence of any of a fixed delimiter set
... whichever delimiter occurs earliest in the span" — the prefix of
the span before the earliest delimiter occurrence. -/
def earliestDelimCut (s : List Char) : Nat :=
  min (cut (strL "and") s) (min (cut (strL "the amount") s) (cut (strL "i need") s))

/-- Modelled from the spec (section 4.3): the span truncated at the
earliest delimiter occurrence. -/
def earliestDelimTrunc (s : List Char) : List Char := s.take (earliestDelimCut s)

/-- Scripted model responses: NER succeeds with no entities, QA and
zero-shot raise. -/
def oracleNerEmpty : NLP :=
  { ner := fun _ => some [], qa := fun _ _ => none, zeroShot := fun _ _ => none }

/-- Scripted model responses: every model call raises. -/
def oracleFailAll : NLP :=
  { ner := fun _ => none, qa := fun _ _ => none, zeroShot := fun _ _ => none }

/-- Scripted model responses: QA answers "0" (a legal extractive-QA
answer span), NER succeeds with no entities, zero-shot raises. -/
def oracleAmountZero : NLP :=
  { ner := fun _ => some [], qa := fun _ _ => some (strL "0"), zeroShot := fun _ _ => none }

/-- Scripted model responses: zero-shot ranks "purchase" on top, NER
succeeds with no entities, QA raises. -/
def oracleZSPurchase : NLP :=
  { ner := fun _ => some [], qa := fun _ _ => none,
    zeroShot := fun _ _ => some (strL "purchase") }

/-- Scripted model responses: NER finds the two-character organisation
name "ab", QA and zero-shot raise. -/
def oracleNerAB : NLP :=
  { ner := fun _ => some [{ word := strL "ab", tag := strL "ORG" }],
    qa := fun _ _ => none, zeroShot := fun _ _ => none }

/-- Scripted model responses for a fully answerable utterance: NER
succeeds with no entities, QA answers "500", zero-shot ranks
"purchase" on top. -/
def oracleFull : NLP :=
  { ner := fun _ => some [], qa := fun _ _ => some (strL "500"),
    zeroShot := fun _ _ => some (strL "purchase") }

lemma firstOcc_some_isPrefixOf {pat : List Char} :
    ∀ {s : List Char} {i : Nat}, firstOcc pat s = some i → pat <+: s.drop i := by
  intro s
  induction s with
  | nil =>
    intro i h
    by_cases hp : pat = [] <;> simp [firstOcc, hp] at h
    simp [hp, h.symm]
  | cons c t ih =>
    intro i h
    by_cases hp : pat.isPrefixOf (c :: t)
    · simp [firstOcc, hp] at h
      rw [← h]
      simpa [← List.isPrefixOf_iff_prefix] using hp
    · simp [firstOcc, hp] at h
      obtain ⟨i', hi', rfl⟩ := h
      simpa using ih hi'

lemma firstOcc_some_le {pat : List Char} :
    ∀ {s : List Char} {i : Nat}, firstOcc pat s = some i → i + pat.length ≤ s.length := by
  intro s
  induction s with
  | nil =>
    intro i h
    by_cases hp : pat = [] <;> simp [firstOcc, hp] at h
    simp [hp, h.symm]
  | cons c t ih =>
    intro i h
    by_cases hp : pat.isPrefixOf (c :: t)
    · simp [firstOcc, hp] at h
      have hl := (List.isPrefixOf_iff_prefix.mp hp).length_le
      simp only [List.length_cons] at hl
      simp [← h]
      omega
    · simp [firstOcc, hp] at h
      obtain ⟨i', hi', rfl⟩ := h
      have := ih hi'
      simp
      omega

lemma firstOcc_take {pat : List Char} (hpat : pat ≠ []) :
    ∀ (s : List Char) (k : Nat), firstOcc pat (s.take k) =
      (firstOcc pat s).bind (fun i => if i + pat.length ≤ k then some i else none) := by
  have hlen : 0 < pat.length := List.length_pos.mpr hpat
  intro s
  induction s with
  | nil => intro k; simp [firstOcc, hpat]
  | cons c t ih =>
    intro k
    cases k with
    | zero =>
      have h0 : firstOcc pat ((c :: t).take 0) = none := by simp [firstOcc, hpat]
      rw [h0]
      cases h : firstOcc pat (c :: t) with
      | none => rfl
      | some i =>
        have hno : ¬ (i + pat.length ≤ 0) := by omega
        simp only [Option.some_bind]
        rw [if_neg hno]
    | succ k' =>
      by_cases hp : pat <+: c :: t
      · by_cases hk : pat.length ≤ k' + 1
        · have hp' : pat <+: (c :: t).take (k' + 1) :=
            List.prefix_take_iff.mpr ⟨hp, hk⟩
          rw [List.take_succ_cons] at hp' ⊢
          simp [firstOcc, List.isPrefixOf_iff_prefix, hp, hp', hk]
        · have hp' : ¬ pat <+: (c :: t).take (k' + 1) := by
            intro hcon
            exact hk (List.prefix_take_iff.mp hcon).2
          rw [List.take_succ_cons] at hp' ⊢
          rw [show firstOcc pat (c :: t.take k') =
              if pat.isPrefixOf (c :: t.take k') then some 0
              else (firstOcc pat (t.take k')).map (· + 1) from rfl]
          simp only [List.isPrefixOf_iff_prefix, hp', if_false]
          rw [ih k']
          rw [show firstOcc pat (c :: t) =
              if pat.isPrefixOf (c :: t) then some 0
              else (firstOcc pat t).map (· + 1) from rfl]
          simp only [List.isPrefixOf_iff_prefix, hp, if_true]
          cases h : firstOcc pat t with
          | none => simp [hk]
          | some i =>
            have h1 : ¬ (i + pat.length ≤ k') := by omega
            simp [h1, hk]
      · have hp' : ¬ pat <+: (c :: t).take (k' + 1) := by
          intro hcon
          exact hp (List.prefix_take_iff.mp hcon).1
        rw [List.take_succ_cons] at hp' ⊢
        rw [show firstOcc pat (c :: t.take k') =
            if pat.isPrefixOf (c :: t.take k') then some 0
            else (firstOcc pat (t.take k')).map (· + 1) from rfl]
        rw [show firstOcc pat (c :: t) =
            if pat.isPrefixOf (c :: t) then some 0
            else (firstOcc pat t).map (· + 1) from rfl]
        simp only [List.isPrefixOf_iff_prefix, hp, hp', if_false]
        rw [ih k']
        cases h : firstOcc pat t with
        | none => simp
        | some i =>
          simp only [Option.map_some', Option.some_bind, Option.bind_some]
          by_cases hik : i + pat.length ≤ k'
          · rw [if_pos hik, if_pos (by omega)]
            rfl
          · rw [if_neg hik, if_neg (by omega)]
            rfl

lemma cut_le {pat : List Char} (hpat : pat ≠ []) (s : List Char) : cut pat s ≤ s.length := by
  unfold cut
  cases h : firstOcc pat s with
  | none => simp
  | some i =>
    have := firstOcc_some_le h
    have := List.length_pos.mpr hpat
    simp
    omega

lemma cut_lt_isPrefixOf {pat s : List Char} (h : cut pat s < s.length) :
    pat <+: s.drop (cut pat s) := by
  unfold cut at *
  cases hf : firstOcc pat s with
  | none => simp [hf] at h
  | some i => simpa using firstOcc_some_isPrefixOf hf

lemma truncAt_take {e : List Char} (he : e ≠ []) (s : List Char) (k : Nat)
    (hk : k ≤ s.length)
    (hstr : ∀ i, firstOcc e s = some i → i < k → i + e.length ≤ k) :
    truncAt e (s.take k) = s.take (min (cut e s) k) := by
  have hlen : 0 < e.length := List.length_pos.mpr he
  unfold truncAt
  rw [List.take_take]
  congr 1
  unfold cut
  rw [firstOcc_take he]
  cases h : firstOcc e s with
  | none => simp [List.length_take, Nat.min_comm]
  | some i =>
    by_cases hik : i + e.length ≤ k
    · simp only [Option.some_bind, if_pos hik, Option.getD_some]
    · have hlt : ¬ i < k := fun hc => hik (hstr i h hc)
      simp only [Option.some_bind, if_neg hik, Option.getD_none, Option.getD_some,
        List.length_take]
      omega

lemma no_straddle_of {d e : List Char}
    (hcmp : ∀ k, k < e.length → 0 < k →
      (d.isPrefixOf (e.drop k)) = false ∧ ((e.drop k).isPrefixOf d) = false)
    {s : List Char} {q p : Nat} (hq : e <+: s.drop q) (hd : d <+: s.drop p)
    (h1 : q < p) (h2 : p < q + e.length) : False := by
  obtain ⟨rest, hrest⟩ := hq
  have hdrop : s.drop p = e.drop (p - q) ++ rest := by
    have : s.drop p = (s.drop q).drop (p - q) := by
      rw [List.drop_drop]
      congr 1
      omega
    rw [this, ← hrest, List.drop_append_of_le_length (by omega)]
  rw [hdrop] at hd
  have hcomp := List.prefix_or_prefix_of_prefix hd (List.prefix_append (e.drop (p - q)) rest)
  have hk := hcmp (p - q) (by omega) (by omega)
  rcases hcomp with hc | hc
  · rw [← List.isPrefixOf_iff_prefix] at hc
    rw [hk.1] at hc
    exact Bool.noConfusion hc
  · rw [← List.isPrefixOf_iff_prefix] at hc
    rw [hk.2] at hc
    exact Bool.noConfusion hc

lemma seqTrunc_eq_earliest (s : List Char) : seqTrunc s = earliestDelimTrunc s := by
  have hand : (strL "and") ≠ [] := by decide
  have htam : (strL "the amount") ≠ [] := by decide
  have hine : (strL "i need") ≠ [] := by decide
  set d1 := strL "and" with hd1
  set d2 := strL "the amount" with hd2
  set d3 := strL "i need" with hd3
  set c1 := cut d1 s with hc1
  set c2 := cut d2 s with hc2
  set c3 := cut d3 s with hc3
  have hc1le : c1 ≤ s.length := cut_le hand s
  have hc2le : c2 ≤ s.length := cut_le htam s
  have step1 : truncAt d1 s = s.take c1 := rfl
  have step2 : truncAt d2 (s.take c1) = s.take (min c2 c1) := by
    apply truncAt_take htam s c1 hc1le
    intro i hi hlt
    by_contra hgt
    have hocc2 : d2 <+: s.drop i := firstOcc_some_isPrefixOf hi
    have hilen : i + d2.length ≤ s.length := firstOcc_some_le hi
    have hc1lt : c1 < s.length := by omega
    have hocc1 : d1 <+: s.drop c1 := cut_lt_isPrefixOf hc1lt
    exact no_straddle_of (by rw [hd1, hd2]; decide) hocc2 hocc1 hlt (by omega)
  have step3 : truncAt d3 (s.take (min c2 c1)) = s.take (min c3 (min c2 c1)) := by
    apply truncAt_take hine s (min c2 c1) (by omega)
    intro i hi hlt
    by_contra hgt
    have hocc3 : d3 <+: s.drop i := firstOcc_some_isPrefixOf hi
    have hilen : i + d3.length ≤ s.length := firstOcc_some_le hi
    have hmlt : min c2 c1 < s.length := by omega
    rcases min_choice c2 c1 with hmin | hmin
    · have hocc2 : d2 <+: s.drop (min c2 c1) := by
        rw [hmin]
        exact cut_lt_isPrefixOf (by omega)
      exact no_straddle_of (by rw [hd2, hd3]; decide) hocc3 hocc2 hlt (by omega)
    · have hocc1 : d1 <+: s.drop (min c2 c1) := by
        rw [hmin]
        exact cut_lt_isPrefixOf (by omega)
      exact no_straddle_of (by rw [hd1, hd3]; decide) hocc3 hocc1 hlt (by omega)
  unfold seqTrunc earliestDelimTrunc earliestDelimCut
  rw [← hd1, ← hd2, ← hd3, step1, step2, step3, ← hc1, ← hc2, ← hc3]
  congr 1
  omega

lemma pyReplaceFuel_fuel_irrel {old new : List Char} :
    ∀ (f f' : Nat) (s : List Char), s.length ≤ f → s.length ≤ f' →
      pyReplaceFuel old new f s = pyReplaceFuel old new f' s := by
  intro f
  induction f with
  | zero =>
    intro f' s hs _
    have : s = [] := List.length_eq_zero.mp (Nat.le_zero.mp hs)
    subst this
    cases f' <;> rfl
  | succ g ih =>
    intro f' s hs hs'
    cases s with
    | nil => cases f' <;> rfl
    | cons c rest =>
      cases f' with
      | zero => simp at hs'
      | succ g' =>
        show pyReplaceFuel old new (g + 1) (c :: rest) =
          pyReplaceFuel old new (g' + 1) (c :: rest)
        rw [show pyReplaceFuel old new (g + 1) (c :: rest) =
            if old ≠ [] ∧ old.isPrefixOf (c :: rest) then
              new ++ pyReplaceFuel old new g ((c :: rest).drop old.length)
            else c :: pyReplaceFuel old new g rest from rfl,
          show pyReplaceFuel old new (g' + 1) (c :: rest) =
            if old ≠ [] ∧ old.isPrefixOf (c :: rest) then
              new ++ pyReplaceFuel old new g' ((c :: rest).drop old.length)
            else c :: pyReplaceFuel old new g' rest from rfl]
        by_cases hcond : old ≠ [] ∧ old.isPrefixOf (c :: rest)
        · rw [if_pos hcond, if_pos hcond]
          have hlenold : 0 < old.length := List.length_pos.mpr hcond.1
          have hdl : ((c :: rest).drop old.length).length ≤ rest.length := by
            simp only [List.length_drop, List.length_cons]
            omega
          simp only [List.length_cons] at hs hs'
          rw [ih g' _ (by omega) (by omega)]
        · rw [if_neg hcond, if_neg hcond]
          simp only [List.length_cons] at hs hs'
          rw [ih g' rest (by omega) (by omega)]

lemma containsB_cons {old : List Char} {c : Char} {rest : List Char}
    (h : containsB old (c :: rest) = false) :
    (old.isPrefixOf (c :: rest)) = false ∧ containsB old rest = false := by
  unfold containsB at *
  rw [show firstOcc old (c :: rest) =
      if old.isPrefixOf (c :: rest) then some 0
      else (firstOcc old rest).map (· + 1) from rfl] at h
  by_cases hp : old.isPrefixOf (c :: rest)
  · rw [if_pos hp] at h
    simp at h
  · rw [if_neg hp] at h
    refine ⟨by simp [hp], ?_⟩
    cases hfo : firstOcc old rest with
    | none => rfl
    | some i =>
      rw [hfo] at h
      simp at h

lemma pyReplace_not_contains {old new : List Char} :
    ∀ {s : List Char}, containsB old s = false → pyReplace old new s = s := by
  have main : ∀ (f : Nat) (s : List Char), s.length ≤ f → containsB old s = false →
      pyReplaceFuel old new f s = s := by
    intro f
    induction f with
    | zero => intro s _ _; rfl
    | succ g ih =>
      intro s hs h
      cases s with
      | nil => rfl
      | cons c rest =>
        obtain ⟨hp, hrest⟩ := containsB_cons h
        show (if old ≠ [] ∧ old.isPrefixOf (c :: rest) then
            new ++ pyReplaceFuel old new g ((c :: rest).drop old.length)
          else c :: pyReplaceFuel old new g rest) = c :: rest
        rw [if_neg (by simp [hp])]
        simp only [List.length_cons] at hs
        rw [ih rest (by omega) hrest]
  intro s h
  exact main s.length s le_rfl h

lemma pyReplace_leading {old new : List Char} (hold : old ≠ []) (rest : List Char) :
    pyReplace old new (old ++ rest) = new ++ pyReplace old new rest := by
  cases old with
  | nil => exact absurd rfl hold
  | cons o ot =>
    unfold pyReplace
    rw [show (o :: ot) ++ rest = o :: (ot ++ rest) from rfl]
    rw [show ((o :: (ot ++ rest)).length) = (ot ++ rest).length + 1 from by simp]
    rw [show pyReplaceFuel (o :: ot) new ((ot ++ rest).length + 1) (o :: (ot ++ rest)) =
        if (o :: ot) ≠ [] ∧ (o :: ot).isPrefixOf (o :: (ot ++ rest)) then
          new ++ pyReplaceFuel (o :: ot) new ((ot ++ rest).length)
            ((o :: (ot ++ rest)).drop (o :: ot).length)
        else o :: pyReplaceFuel (o :: ot) new ((ot ++ rest).length) (ot ++ rest) from rfl]
    have hpre : (o :: ot).isPrefixOf (o :: (ot ++ rest)) := by
      rw [List.isPrefixOf_iff_prefix]
      exact List.prefix_append (o :: ot) rest
    rw [if_pos ⟨by simp, hpre⟩]
    congr 1
    have hdrop : (o :: (ot ++ rest)).drop (o :: ot).length = rest := by
      rw [show o :: (ot ++ rest) = (o :: ot) ++ rest from rfl]
      exact List.drop_left (o :: ot) rest
    rw [hdrop]
    apply pyReplaceFuel_fuel_irrel
    · simp
    · exact le_rfl

lemma processRequest_eval (o : NLP) (t : List Char) :
    processRequest o t =
      { project_id :=
          match extractProjectId o t with
          | none => none
          | some s => if pyIsdigit s = true ∨ 2 < s.length then some s else none
        amount := extractAmount o t
        reason :=
          match extractReason o t with
          | none => none
          | some s => if 10 < s.length then some s else none } := by
  unfold processRequest
  refine MoneyRequest.mk.injEq .. ▸ ?_
  refine ⟨?_, ?_, ?_⟩
  · cases extractProjectId o t with
    | none => simp [confidenceProjectId]
    | some s =>
      by_cases h : pyIsdigit s = true ∨ 2 < s.length
      · simp only [confidenceProjectId, if_pos h]
        norm_num
      · simp only [confidenceProjectId, if_neg h]
        norm_num
  · cases extractAmount o t with
    | none => simp [confidenceAmount]
    | some n => simp only [confidenceAmount]; norm_num
  · cases extractReason o t with
    | none => simp [confidenceReason]
    | some s =>
      by_cases h : 10 < s.length
      · simp only [confidenceReason, if_pos h]
        norm_num
      · simp only [confidenceReason, if_neg h]
        norm_num

lemma pySeg1_some_contains {pat s seg : List Char} (h : pySeg1 pat s = some seg) :
    containsB pat s = true := by
  unfold pySeg1 at h
  unfold containsB
  cases hf : firstOcc pat s with
  | none => rw [hf] at h; simp at h
  | some i => rfl

lemma contains_pySeg1_some {pat s : List Char} (h : containsB pat s = true) :
    ∃ seg, pySeg1 pat s = some seg := by
  unfold containsB at h
  unfold pySeg1
  cases hf : firstOcc pat s with
  | none => rw [hf] at h; simp at h
  | some i => exact ⟨_, rfl⟩

lemma extractReason_some_length {o : NLP} {t v : List Char}
    (h : extractReason o t = some v) : 10 < v.length := by
  unfold extractReason at h
  by_cases hc : containsB (strL "buy") (lowerL t) = false
  · rw [if_pos hc] at h
    exact absurd h (by simp)
  · rw [if_neg hc] at h
    cases hseg : pySeg1 (strL "buy") (lowerL t) with
    | none => rw [hseg] at h; exact absurd h (by simp)
    | some bp =>
      rw [hseg] at h
      cases hz : o.zeroShot (pyStrip (seqTrunc bp)) reasonCategories with
      | none => simp only [hz] at h; exact absurd h (by simp)
      | some cat =>
        simp only [hz] at h
        have hv : strL "buy " ++ pyStrip (seqTrunc bp) ++ strL " for the project (" ++
            cat ++ strL ")" = v := by
          injection h
        rw [← hv]
        have l1 : (strL "buy ").length = 4 := rfl
        have l2 : (strL " for the project (").length = 18 := rfl
        have l3 : (strL ")").length = 1 := rfl
        simp only [List.length_append, l1, l2, l3]
        omega

lemma projectId_populated {o : NLP} {t s : List Char}
    (h : (processRequest o t).project_id = some s) :
    extractProjectId o t = some s ∧ (pyIsdigit s = true ∨ 2 < s.length) := by
  rw [processRequest_eval] at h
  revert h
  cases hx : extractProjectId o t with
  | none => intro h; exact absurd h (by simp)
  | some s' =>
    intro h
    dsimp only at h
    by_cases hcond : pyIsdigit s' = true ∨ 2 < s'.length
    · rw [if_pos hcond] at h
      injection h with h'
      exact ⟨by rw [h'], by rw [← h']; exact hcond⟩
    · rw [if_neg hcond] at h
      exact absurd h (by simp)

lemma projectId_populated_ne_nil {o : NLP} {t s : List Char}
    (h : (processRequest o t).project_id = some s) : s ≠ [] := by
  rcases (projectId_populated h).2 with hd | hl
  · intro hnil
    rw [hnil] at hd
    exact absurd hd (by decide)
  · intro hnil
    rw [hnil] at hl
    simp at hl

lemma reason_populated_length {o : NLP} {t s : List Char}
    (h : (processRequest o t).reason = some s) : 10 < s.length := by
  rw [processRequest_eval] at h
  revert h
  cases hx : extractReason o t with
  | none => intro h; exact absurd h (by simp)
  | some s' =>
    intro h
    dsimp only at h
    by_cases hcond : 10 < s'.length
    · rw [if_pos hcond] at h
      injection h with h'
      rw [← h']
      exact hcond
    · rw [if_neg hcond] at h
      exact absurd h (by simp)

/-- C10: calling the turn entry point with no audio and an empty or
missing text input returns exactly the tuple
`("No input provided", "", false, none)`: no extraction is attempted,
no slot prompt is produced, completion is not signaled, and no missing
slot is reported.  (Both Python `None` and `""` are falsy, modelled by
the empty character list.) -/
theorem C10_no_input (o : NLP) :
    processInput o (strL "") =
      { recognizedText := strL "No input provided", response := strL ""
        showConfirm := false, missingField := none } := rfl

/-- C7: the confirm action re-runs assembly on the final accumulated
text passed to it and persists the freshly derived record
`{project, amount, reason, timestamp}`; the persisted record is a pure
function of that final text (and the clock), so it cannot reuse a
request cached from an earlier assembly — if the accumulated text
changed between the last dialogue turn and confirmation, the persisted
record reflects the latest text. -/
theorem C7_confirm_rederives (o : NLP) (finalText : List Char) (now : Nat)
    (h : finalText ≠ []) :
    confirmAndSave o finalText now =
      (strL "Request saved successfully!",
        some { project := (processRequest o finalText).project_id
               request_amount := (processRequest o finalText).amount
               reason := (processRequest o finalText).reason
               timestamp := now }) := by
  unfold confirmAndSave
  rw [if_neg h]

/-- C7 witness: the confirm action at a concrete oracle and text. -/
theorem C7_confirm_rederives_witness :
    confirmAndSave oracleFull (strL "x") 0 =
      (strL "Request saved successfully!",
        some { project := (processRequest oracleFull (strL "x")).project_id
               request_amount := (processRequest oracleFull (strL "x")).amount
               reason := (processRequest oracleFull (strL "x")).reason
               timestamp := 0 }) :=
  C7_confirm_rederives oracleFull (strL "x") 0 (by decide)

/-- C8: if the model call an extractor makes (NER, QA, zero-shot)
raises, the extractor returns none for that slot; no error propagates
to the caller of assembly, which still returns a `MoneyRequest` with
that slot absent. -/
theorem C8_failures_degrade (o : NLP) (t : List Char) :
    (o.ner t = none →
      extractProjectId o t = none ∧ (processRequest o t).project_id = none) ∧
    ((∀ q c, o.qa q c = none) →
      extractAmount o t = none ∧ (processRequest o t).amount = none) ∧
    ((∀ x cats, o.zeroShot x cats = none) →
      extractReason o t = none ∧ (processRequest o t).reason = none) := by
  refine ⟨fun hner => ?_, fun hqa => ?_, fun hzs => ?_⟩
  · have hx : extractProjectId o t = none := by
      unfold extractProjectId
      by_cases hc : containsB (strL "project") (lowerL t) = false
      · rw [if_pos hc]
      · rw [if_neg hc, hner]
    refine ⟨hx, ?_⟩
    rw [processRequest_eval, hx]
  · have hx : extractAmount o t = none := by
      unfold extractAmount
      rw [hqa howMuchQuestion t]
    refine ⟨hx, ?_⟩
    rw [processRequest_eval, hx]
  · have hx : extractReason o t = none := by
      unfold extractReason
      by_cases hc : containsB (strL "buy") (lowerL t) = false
      · rw [if_pos hc]
      · rw [if_neg hc]
        cases hseg : pySeg1 (strL "buy") (lowerL t) with
        | none => rfl
        | some bp =>
          dsimp only
          rw [hzs]
    refine ⟨hx, ?_⟩
    rw [processRequest_eval, hx]

/-- C8 witness: with every model call failing, assembly of a concrete
utterance yields a request with every slot absent. -/
theorem C8_failures_degrade_witness :
    (extractProjectId oracleFailAll (strL "project 223 to buy pens") = none ∧
      (processRequest oracleFailAll (strL "project 223 to buy pens")).project_id = none) ∧
    (extractAmount oracleFailAll (strL "project 223 to buy pens") = none ∧
      (processRequest oracleFailAll (strL "project 223 to buy pens")).amount = none) ∧
    (extractReason oracleFailAll (strL "project 223 to buy pens") = none ∧
      (processRequest oracleFailAll (strL "project 223 to buy pens")).reason = none) :=
  ⟨(C8_failures_degrade oracleFailAll (strL "project 223 to buy pens")).1 rfl,
    (C8_failures_degrade oracleFailAll (strL "project 223 to buy pens")).2.1
      (fun _ _ => rfl),
    (C8_failures_degrade oracleFailAll (strL "project 223 to buy pens")).2.2
      (fun _ _ => rfl)⟩

/-- C4: the confidence scorer is the exact deterministic rule table —
0.0 for a none value; 1.0 for a present numeric amount; 0.9 for a
present project_id that is all-digit or longer than 2 characters; 0.8
for a present reason longer than 10 characters; 0.5 for any other
populated case — and the assembler accepts a raw extracted value into
the request if and only if its score is strictly greater than 0.5; a
field scoring exactly 0.5 (e.g. a 2-character non-digit project name)
is cleared to none. -/
theorem C4_confidence_table :
    (confidenceProjectId none = 0 ∧ confidenceAmount none = 0 ∧ confidenceReason none = 0) ∧
    (∀ n : Nat, confidenceAmount (some n) = 1) ∧
    (∀ s : List Char, (pyIsdigit s = true ∨ 2 < s.length) →
      confidenceProjectId (some s) = 9/10) ∧
    (∀ s : List Char, 10 < s.length → confidenceReason (some s) = 8/10) ∧
    (∀ s : List Char, ¬ (pyIsdigit s = true ∨ 2 < s.length) →
      confidenceProjectId (some s) = 1/2) ∧
    (∀ s : List Char, ¬ 10 < s.length → confidenceReason (some s) = 1/2) ∧
    (∀ (o : NLP) (t : List Char),
      (processRequest o t).project_id =
        (if (1:ℚ)/2 < confidenceProjectId (extractProjectId o t)
          then extractProjectId o t else none) ∧
      (processRequest o t).amount =
        (if (1:ℚ)/2 < confidenceAmount (extractAmount o t)
          then extractAmount o t else none) ∧
      (processRequest o t).reason =
        (if (1:ℚ)/2 < confidenceReason (extractReason o t)
          then extractReason o t else none)) ∧
    (∀ (o : NLP) (t s : List Char), extractProjectId o t = some s →
      pyIsdigit s = false → s.length ≤ 2 → (processRequest o t).project_id = none) := by
  refine ⟨⟨rfl, rfl, rfl⟩, fun n => rfl, fun s h => ?_, fun s h => ?_,
    fun s h => ?_, fun s h => ?_, fun o t => ⟨rfl, rfl, rfl⟩, fun o t s hx hd hl => ?_⟩
  · simp only [confidenceProjectId, if_pos h]
  · simp only [confidenceReason, if_pos h]
  · simp only [confidenceProjectId, if_neg h]
  · simp only [confidenceReason, if_neg h]
  · rw [processRequest_eval, hx]
    have hcond : ¬ (pyIsdigit s = true ∨ 2 < s.length) := by
      rintro (hc | hc)
      · rw [hd] at hc
        exact Bool.noConfusion hc
      · omega
    simp only [if_neg hcond]

/-- C4 witness: a concrete two-character non-digit project name ("ab",
reported by NER as an ORG entity) scores exactly 0.5 and is cleared to
none by the assembler. -/
theorem C4_confidence_table_witness :
    extractProjectId oracleNerAB (strL "project ab to buy pens") = some (strL "ab") ∧
    (processRequest oracleNerAB (strL "project ab to buy pens")).project_id = none :=
  ⟨by decide,
    C4_confidence_table.2.2.2.2.2.2.2 oracleNerAB (strL "project ab to buy pens")
      (strL "ab") (by decide) (by decide) (by decide)⟩

/-- C9: if ReasonExtractor returns a value, that value has length
strictly greater than 10 (the fixed template
`"buy <span> for the project (<category>)"` exceeds 10 characters even
for an empty span and any category), so every non-none extracted
reason scores exactly 0.8 and is always accepted by the confidence
gate — the gate can never discard a reason that the extractor
produced. -/
theorem C9_reason_always_accepted (o : NLP) (t : List Char) :
    (∀ v, extractReason o t = some v →
      10 < v.length ∧ confidenceReason (some v) = 8/10) ∧
    (processRequest o t).reason = extractReason o t := by
  constructor
  · intro v hv
    have hl := extractReason_some_length hv
    exact ⟨hl, by simp only [confidenceReason, if_pos hl]⟩
  · rw [processRequest_eval]
    cases hx : extractReason o t with
    | none => rfl
    | some v =>
      have hl := extractReason_some_length hx
      simp only [if_pos hl]

/-- C9 witness: a concrete extracted reason, its length bound, and its
acceptance by the gate. -/
theorem C9_reason_always_accepted_witness :
    (10 < (strL "buy x for the project (purchase)").length ∧
      confidenceReason (some (strL "buy x for the project (purchase)")) = 8/10) ∧
    (processRequest oracleZSPurchase (strL "buy x")).reason =
      extractReason oracleZSPurchase (strL "buy x") :=
  ⟨(C9_reason_always_accepted oracleZSPurchase (strL "buy x")).1
      (strL "buy x for the project (purchase)") (by decide),
    (C9_reason_always_accepted oracleZSPurchase (strL "buy x")).2⟩

/-- C5 counterexample: the claim says AmountExtractor never returns
zero and any returned value is strictly positive, but with the QA
answer span "0" the source computes `float("0") = 0.0` and returns it
(the guard `if numbers:` only tests that the digit string is
nonempty). -/
theorem C5_counterexample :
    extractAmount oracleAmountZero (strL "i need money") = some 0 := by decide

/-- C5 (amended): AmountExtractor strips all non-digit characters from
the QA answer and parses the remainder; whenever QA fails or the
answer contains no digits it returns none (never an implicit zero);
any returned value is the nonnegative numeric value of the answer's
digits — zero is returned when those digits are all zeros, so returned
values are not guaranteed strictly positive. -/
theorem C5_amount_parse (o : NLP) (t : List Char) :
    (o.qa howMuchQuestion t = none → extractAmount o t = none) ∧
    (∀ a, o.qa howMuchQuestion t = some a →
      (a.filter Char.isDigit = [] → extractAmount o t = none) ∧
      (a.filter Char.isDigit ≠ [] →
        extractAmount o t = some (digitsToNat (a.filter Char.isDigit)))) ∧
    (∀ v, extractAmount o t = some v →
      ∃ a, o.qa howMuchQuestion t = some a ∧ a.filter Char.isDigit ≠ [] ∧
        v = digitsToNat (a.filter Char.isDigit)) := by
  refine ⟨fun h => ?_, fun a ha => ⟨fun hd => ?_, fun hd => ?_⟩, fun v hv => ?_⟩
  · unfold extractAmount
    rw [h]
  · unfold extractAmount
    rw [ha]
    dsimp only
    rw [if_neg (by simp [hd])]
  · unfold extractAmount
    rw [ha]
    dsimp only
    rw [if_pos hd]
  · unfold extractAmount at hv
    cases hq : o.qa howMuchQuestion t with
    | none => rw [hq] at hv; exact absurd hv (by simp)
    | some a =>
      rw [hq] at hv
      dsimp only at hv
      by_cases hd : a.filter Char.isDigit ≠ []
      · rw [if_pos hd] at hv
        injection hv with hv'
        exact ⟨a, rfl, hd, hv'.symm⟩
      · rw [if_neg hd] at hv
        exact absurd hv (by simp)

/-- C5 witness: a concrete QA answer "500" parses to 500. -/
theorem C5_amount_parse_witness :
    extractAmount oracleFull (strL "anything") = some (digitsToNat (strL "500")) :=
  ((C5_amount_parse oracleFull (strL "anything")).2.1 (strL "500") rfl).2 (by decide)

/-- C3 counterexample: the claim says only the first occurrence of
"project" is replaced, but Python `str.replace` replaces every
occurrence: on accumulated text "project project" with fragment "500"
the merge yields "project 500 project 500", not
"project 500 project". -/
theorem C3_counterexample :
    mergeFollowup (strL "project") (strL "project project") (strL "500") =
      strL "project 500 project 500" ∧
    ¬ mergeFollowup (strL "project") (strL "project project") (strL "500") =
      strL "project 500 project" := by decide

/-- C3 (amended): the merge applied before re-assembly is
slot-specific: in AwaitingProject every occurrence (not only the
first) of the literal substring "project" in the accumulated text is
replaced by "project <fragment>" (texts without an occurrence are
unchanged, and replacement proceeds left to right from the leftmost
occurrence); in AwaitingAmount the string " <fragment> riyals" is
appended; in AwaitingReason the string " to <fragment>" is appended;
in particular, in AwaitingAmount with accumulated text "project 223"
and fragment "500" the merged text is "project 223 500 riyals". -/
theorem C3_merge_rules :
    (∀ accum frag : List Char,
      mergeFollowup (strL "amount") accum frag =
        accum ++ strL " " ++ frag ++ strL " riyals") ∧
    (∀ accum frag : List Char,
      mergeFollowup (strL "reason") accum frag = accum ++ strL " to " ++ frag) ∧
    (∀ accum frag : List Char, containsB (strL "project") accum = false →
      mergeFollowup (strL "project") accum frag = accum) ∧
    (∀ rest frag : List Char,
      mergeFollowup (strL "project") (strL "project" ++ rest) frag =
        strL "project " ++ frag ++ mergeFollowup (strL "project") rest frag) ∧
    mergeFollowup (strL "amount") (strL "project 223") (strL "500") =
      strL "project 223 500 riyals" := by
  refine ⟨fun accum frag => ?_, fun accum frag => ?_, fun accum frag h => ?_,
    fun rest frag => ?_, by decide⟩
  · unfold mergeFollowup
    rw [if_neg (by decide), if_pos rfl]
  · unfold mergeFollowup
    rw [if_neg (by decide), if_neg (by decide), if_pos rfl]
  · unfold mergeFollowup
    rw [if_pos rfl]
    exact pyReplace_not_contains h
  · unfold mergeFollowup
    rw [if_pos rfl, if_pos rfl]
    rw [pyReplace_leading (by decide)]

/-- C3 witness: an accumulated text without any "project" occurrence
is left unchanged by the AwaitingProject merge. -/
theorem C3_merge_rules_witness :
    mergeFollowup (strL "project") (strL "abc") (strL "X") = strL "abc" :=
  C3_merge_rules.2.2.1 (strL "abc") (strL "X") (by decide)

/-- C2 counterexample: the claim says that for a next token other than
the words "to" or "buy" — its own example is "tools" — the extractor
does not return none at the disqualification step; but the source
tests substring containment (`"to" in project_part.split()[0]`), and
"to" is a substring of "tools", so "project tools" is disqualified to
none even though the lexical fallback (second conjunct) would have
produced "tools". -/
theorem C2_counterexample :
    extractProjectId oracleNerEmpty (strL "project tools") = none ∧
    scanWords (strL "project tools") (pySplitWs (strL " tools")) =
      some (strL "tools") := by decide

/-- C2 (amended): for every text containing "project"
(case-insensitive), the extractor returns none at the disqualification
step exactly when the first whitespace token of the post-"project"
segment contains "to" or "buy" as a substring (so the words "to" and
"buy" disqualify, but so do e.g. "tools" and "buyer"); when the token
contains neither substring it proceeds to the NER scan over the
segment and then the lexical fallback; when "project" is absent it
returns none immediately. -/
theorem C2_project_disqualification (o : NLP) (t : List Char) :
    (containsB (strL "project") (lowerL t) = false → extractProjectId o t = none) ∧
    (∀ part tok0 rest,
      pySeg1 (strL "project") (lowerL t) = some part →
      pySplitWs part = tok0 :: rest →
      ((containsB (strL "to") tok0 || containsB (strL "buy") tok0) = true →
        extractProjectId o t = none) ∧
      ((containsB (strL "to") tok0 || containsB (strL "buy") tok0) = false →
        extractProjectId o t =
          match o.ner t with
          | none => none
          | some entities =>
            match projectIdNerScan entities part with
            | some e => some e.word
            | none => scanWords t (pySplitWs part))) := by
  constructor
  · intro h
    unfold extractProjectId
    rw [if_pos h]
  · intro part tok0 rest hseg hsplit
    have hc : containsB (strL "project") (lowerL t) = true := pySeg1_some_contains hseg
    constructor
    · intro hdq
      unfold extractProjectId
      rw [hc, if_neg (by simp)]
      cases hner : o.ner t with
      | none => rfl
      | some entities =>
        dsimp only
        rw [hseg]
        dsimp only
        rw [hsplit]
        dsimp only
        rw [hdq, if_pos rfl]
    · intro hdq
      unfold extractProjectId
      rw [hc, if_neg (by simp)]
      cases hner : o.ner t with
      | none => rfl
      | some entities =>
        dsimp only
        rw [hseg]
        dsimp only
        rw [hsplit]
        dsimp only
        rw [hdq, if_neg (by simp)]

/-- C2 witness: the token "to" right after "project" disqualifies. -/
theorem C2_project_disqualification_witness :
    extractProjectId oracleNerEmpty (strL "for project to buy pens") = none :=
  ((C2_project_disqualification oracleNerEmpty (strL "for project to buy pens")).2
    (strL " to buy pens") (strL "to") [strL "buy", strL "pens"]
    (by decide) (by decide)).1 (by decide)

/-- C6 counterexample: the claim says the candidate span is the text
after the first "buy", but Python `split("buy")[1]` is the segment
between the first and second occurrences: on "buy a buy b" the source
uses span "a" and returns "buy a for the project (purchase)", not
"buy a buy b for the project (purchase)". -/
theorem C6_counterexample :
    extractReason oracleZSPurchase (strL "buy a buy b") =
      some (strL "buy a for the project (purchase)") ∧
    ¬ extractReason oracleZSPurchase (strL "buy a buy b") =
      some (strL "buy a buy b for the project (purchase)") := by decide

/-- C6 (amended): ReasonExtractor returns none when "buy" is absent
from the lowercased text; otherwise the candidate span is the segment
of the lowercased text between the first and second occurrences of
"buy" (the whole remainder when "buy" occurs once), that span is
truncated at the earliest occurrence among the delimiters "and",
"the amount", "i need" (the code's sequential per-delimiter splitting
provably yields the prefix before whichever delimiter occurs
earliest), and the result is
`"buy <span> for the project (<category>)"` with `<span>` the trimmed
truncated span and `<category>` the zero-shot top label (none if
classification fails). -/
theorem C6_reason_truncation (o : NLP) (t : List Char) :
    (containsB (strL "buy") (lowerL t) = false → extractReason o t = none) ∧
    (∀ seg, pySeg1 (strL "buy") (lowerL t) = some seg →
      extractReason o t =
        (o.zeroShot (pyStrip (earliestDelimTrunc seg)) reasonCategories).map
          (fun c => strL "buy " ++ pyStrip (earliestDelimTrunc seg) ++
            strL " for the project (" ++ c ++ strL ")")) ∧
    (∀ s : List Char, seqTrunc s = earliestDelimTrunc s) := by
  refine ⟨fun h => ?_, fun seg hseg => ?_, seqTrunc_eq_earliest⟩
  · unfold extractReason
    rw [if_pos h]
  · have hc := pySeg1_some_contains hseg
    unfold extractReason
    rw [hc, if_neg (by simp), hseg]
    dsimp only
    rw [seqTrunc_eq_earliest]
    cases o.zeroShot (pyStrip (earliestDelimTrunc seg)) reasonCategories <;> rfl

/-- C6 witness: a concrete utterance whose span is truncated at the
delimiter "and". -/
theorem C6_reason_truncation_witness :
    extractReason oracleZSPurchase (strL "i will buy pens and pencils") =
      some (strL "buy pens for the project (purchase)") := by
  have h := (C6_reason_truncation oracleZSPurchase
    (strL "i will buy pens and pencils")).2.1 (strL " pens and pencils") (by decide)
  rw [h]
  decide

/-- C1 counterexample: the claim says the dialogue never asks for a
slot the assembler reports as populated, but with QA answering "0" the
assembled request holds amount `some 0` (confidence 1.0, above the
threshold) while the Python truthiness test `not request.amount` still
fires, so the amount prompt is emitted for a populated slot. -/
theorem C1_counterexample :
    processInput oracleAmountZero (strL "project 223") =
      { recognizedText := strL "project 223"
        response := strL "Can you specify the amount you need in riyals?"
        showConfirm := false, missingField := some (strL "amount") } ∧
    (processRequest oracleAmountZero (strL "project 223")).amount = some 0 := by
  have hpr := processRequest_eval oracleAmountZero (strL "project 223")
  constructor
  · simp only [processInput]
    rw [hpr]
    decide
  · rw [hpr]
    decide

/-- C1 (amended): for every nonempty utterance, after assembly the
dialogue controller asks for the highest-priority slot whose value is
falsy, in the fixed order project → amount → reason, emitting exactly
the three fixed prompts, and signals Complete with the confirmation
message when all three slots hold truthy values; it never asks for the
project or reason slot when the assembler reports it populated, and it
asks for the amount slot only when that slot is absent or holds the
populated value 0 (which Python truthiness treats as absent and
re-asks). -/
theorem C1_dialogue_priority (o : NLP) (t : List Char) (hne : t ≠ []) :
    ((processInput o t).missingField = some (strL "project") →
      (processRequest o t).project_id = none ∧
      processInput o t =
        { recognizedText := t
          response := strL "Can you provide me the project name you are trying to request money for?"
          showConfirm := false, missingField := some (strL "project") }) ∧
    ((processInput o t).missingField = some (strL "amount") →
      (processRequest o t).project_id ≠ none ∧
      ((processRequest o t).amount = none ∨ (processRequest o t).amount = some 0) ∧
      processInput o t =
        { recognizedText := t
          response := strL "Can you specify the amount you need in riyals?"
          showConfirm := false, missingField := some (strL "amount") }) ∧
    ((processInput o t).missingField = some (strL "reason") →
      (processRequest o t).project_id ≠ none ∧
      (∃ n, (processRequest o t).amount = some n ∧ 0 < n) ∧
      (processRequest o t).reason = none ∧
      processInput o t =
        { recognizedText := t
          response := strL "Can you provide the reason for this money request?"
          showConfirm := false, missingField := some (strL "reason") }) ∧
    ((processInput o t).missingField = none →
      (processRequest o t).project_id ≠ none ∧
      (∃ n, (processRequest o t).amount = some n ∧ 0 < n) ∧
      (processRequest o t).reason ≠ none ∧
      processInput o t =
        { recognizedText := t
          response := generateConfirmationMessage (processRequest o t)
          showConfirm := true, missingField := none }) := by
  cases hp : (processRequest o t).project_id with
  | none =>
    have hpt : pyTruthyStr (processRequest o t).project_id = false := by
      rw [hp]; rfl
    have hout : processInput o t =
        { recognizedText := t
          response := strL "Can you provide me the project name you are trying to request money for?"
          showConfirm := false, missingField := some (strL "project") } := by
      unfold processInput
      rw [if_neg hne]
      dsimp only
      rw [hpt, if_pos rfl]
    refine ⟨fun _ => ⟨rfl, hout⟩, fun hmf => ?_, fun hmf => ?_, fun hmf => ?_⟩ <;>
      · rw [hout] at hmf
        dsimp only at hmf
        exact absurd hmf (by decide)
  | some s =>
    have hs : s ≠ [] := projectId_populated_ne_nil hp
    have hpt : pyTruthyStr (processRequest o t).project_id = true := by
      rw [hp]
      cases s with
      | nil => exact absurd rfl hs
      | cons c cs => rfl
    have hpne : (some s : Option (List Char)) ≠ none := Option.some_ne_none s
    cases ha : (processRequest o t).amount with
    | none =>
      have hat : pyTruthyNum (processRequest o t).amount = false := by rw [ha]; rfl
      have hout : processInput o t =
          { recognizedText := t
            response := strL "Can you specify the amount you need in riyals?"
            showConfirm := false, missingField := some (strL "amount") } := by
        unfold processInput
        rw [if_neg hne]
        dsimp only
        rw [hpt, if_neg (by simp), hat, if_pos rfl]
      refine ⟨fun hmf => ?_, fun _ => ⟨hpne, Or.inl rfl, hout⟩, fun hmf => ?_,
        fun hmf => ?_⟩ <;>
        · rw [hout] at hmf
          dsimp only at hmf
          exact absurd hmf (by decide)
    | some n =>
      by_cases hn : n = 0
      · have hat : pyTruthyNum (processRequest o t).amount = false := by
          rw [ha, hn]; rfl
        have hout : processInput o t =
            { recognizedText := t
              response := strL "Can you specify the amount you need in riyals?"
              showConfirm := false, missingField := some (strL "amount") } := by
          unfold processInput
          rw [if_neg hne]
          dsimp only
          rw [hpt, if_neg (by simp), hat, if_pos rfl]
        refine ⟨fun hmf => ?_, fun _ => ⟨hpne, Or.inr (by rw [hn]), hout⟩,
          fun hmf => ?_, fun hmf => ?_⟩ <;>
          · rw [hout] at hmf
            dsimp only at hmf
            exact absurd hmf (by decide)
      · have hat : pyTruthyNum (processRequest o t).amount = true := by
          rw [ha]
          simp [pyTruthyNum, hn]
        have hex : ∃ m, (some n : Option Nat) = some m ∧ 0 < m :=
          ⟨n, rfl, Nat.pos_of_ne_zero hn⟩
        cases hr : (processRequest o t).reason with
        | none =>
          have hrt : pyTruthyStr (processRequest o t).reason = false := by
            rw [hr]; rfl
          have hout : processInput o t =
              { recognizedText := t
                response := strL "Can you provide the reason for this money request?"
                showConfirm := false, missingField := some (strL "reason") } := by
            unfold processInput
            rw [if_neg hne]
            dsimp only
            rw [hpt, if_neg (by simp), hat, if_neg (by simp), hrt, if_pos rfl]
          refine ⟨fun hmf => ?_, fun hmf => ?_, fun _ => ⟨hpne, hex, rfl, hout⟩,
            fun hmf => ?_⟩ <;>
            · rw [hout] at hmf
              dsimp only at hmf
              exact absurd hmf (by decide)
        | some rs =>
          have hrs : rs ≠ [] := by
            have hlen := reason_populated_length hr
            intro hnil
            rw [hnil] at hlen
            simp at hlen
          have hrt : pyTruthyStr (processRequest o t).reason = true := by
            rw [hr]
            cases rs with
            | nil => exact absurd rfl hrs
            | cons c cs => rfl
          have hrne : (some rs : Option (List Char)) ≠ none := Option.some_ne_none rs
          have hout : processInput o t =
              { recognizedText := t
                response := generateConfirmationMessage (processRequest o t)
                showConfirm := true, missingField := none } := by
            unfold processInput
            rw [if_neg hne]
            dsimp only
            rw [hpt, if_neg (by simp), hat, if_neg (by simp), hrt, if_neg (by simp)]
          refine ⟨fun hmf => ?_, fun hmf => ?_, fun hmf => ?_,
            fun _ => ⟨hpne, hex, hrne, hout⟩⟩ <;>
            · rw [hout] at hmf
              dsimp only at hmf
              exact absurd hmf (by decide)

/-- C1 witness: with all model calls failing and a nonempty utterance,
the first prompt asks for the (absent) project slot. -/
theorem C1_dialogue_priority_witness :
    (processRequest oracleFailAll (strL "x")).project_id = none ∧
    processInput oracleFailAll (strL "x") =
      { recognizedText := strL "x"
        response := strL "Can you provide me the project name you are trying to request money for?"
        showConfirm := false, missingField := some (strL "project") } :=
  (C1_dialogue_priority oracleFailAll (strL "x") (by decide)).1 (by
    simp only [processInput]
    rw [processRequest_eval]
    decide)

end VoiceERP

